import Mathlib

/-!
Shallow embedding of `src/utils/bd.py` (Bjontegaard-Delta metrics: `preprocess`,
`bdsnr`, `bdrate`).

Modelling conventions:
* Input sample points are pairs of rationals (every finite IEEE double is a
  rational number).  All arithmetic involving logarithms, interpolation and
  integration is carried out in `ℝ`.
* `numpy` arrays are modelled as Lean lists.
* `np.unique(x, axis=0)` returns the distinct rows in lexicographic order; it
  is modelled as lexicographic insertion sort after `dedup`.
* `x[np.argsort(x[:, col])]`: the default `np.argsort` is an unstable
  introsort that only runs its stable insertion sort on ranges of at most
  16 elements.  Two models are used.  `preprocess` sorts the rows of
  `np.unique` stably by column `col`; it agrees with numpy whenever there
  are at most 16 distinct rows, and the driver-level theorems are stated
  over it (their validity hypotheses forbid ties on the sort axis, and the
  interval endpoints and both fits are order-independent, so the tie order
  numpy may permute is invisible to `bdsnr`/`bdrate`).  `preprocessNp` is
  the faithful model: `npArgsortSort` embeds numpy's `aquicksort`
  (median-of-3 Hoare partitioning, `SMALL_QUICKSORT = 15`, depth limit
  `2*msb(n)` with the `aheapsort` fallback); it settles the normalizer
  claim, whose lexicographic tie-break holds below the threshold and fails
  on a concrete 17-row input.
* `math.log` raises `ValueError` on non-positive inputs, and `min`/`max`
  raise on empty sequences, so the drivers return `Except`.
* scipy's `PchipInterpolator` is embedded by its derivative formulas
  (`_find_derivatives` and `_edge_case`) together with exact piecewise
  integration of the cubic Hermite segments, extended by the boundary
  polynomials outside the knot range, matching `PPoly.integrate` with
  extrapolation.
* `np.polyfit(x, y, 3)` solves a least-squares problem; it is embedded by the
  normal equations `(VᵀV)c = Vᵀy`, whose solution is the least-squares
  minimiser whenever there are at least four distinct abscissae.  (numpy's
  minimum-norm fallback for rank-deficient data is not relied upon by any
  theorem below.)
* In `bdrate`, every operand of the division on line 148 is a numpy float64
  scalar, and numpy scalar division by zero yields `nan`/`inf` with a
  `RuntimeWarning` instead of raising.  On a degenerate interval both
  definite integrals are exactly `0.0`, so `avg_exp_diff` is `0.0/0.0`,
  which is `nan`; `nan > 200` is false and `math.exp(nan)` is `nan`, so the
  call returns `nan`.  That `nan` outcome is modelled as `none` in the
  `Option ℝ` result.
-/

open Real

/-- Failure outcomes of the drivers (Python exceptions). -/
inductive BdErr where
  | domain
  | empty
  | badKnots
  deriving DecidableEq, Repr

/-- Lexicographic order on sample points: the row order used by
`np.unique(x, axis=0)`. -/
def lexLe (p q : ℚ × ℚ) : Prop :=
  p.1 < q.1 ∨ (p.1 = q.1 ∧ p.2 ≤ q.2)

instance : DecidableRel lexLe := fun p q => by
  unfold lexLe; infer_instance

/-- Coordinate selected by `col` (`0` = rate, `1` = quality). -/
def colv (col : Fin 2) (p : ℚ × ℚ) : ℚ :=
  if col = 0 then p.1 else p.2

/-- Comparison key of `np.argsort(x[:, col])`. -/
def colLe (col : Fin 2) (p q : ℚ × ℚ) : Prop :=
  colv col p ≤ colv col q

instance (col : Fin 2) : DecidableRel (colLe col) := fun p q => by
  unfold colLe; infer_instance

/-- Order by the selected column with ties broken lexicographically: the
output order of `preprocess`. -/
def keyLe (col : Fin 2) (p q : ℚ × ℚ) : Prop :=
  colv col p < colv col q ∨ (colv col p = colv col q ∧ lexLe p q)

instance (col : Fin 2) : DecidableRel (keyLe col) := fun p q => by
  unfold keyLe; infer_instance

instance : IsTotal (ℚ × ℚ) lexLe := ⟨fun p q => by
  unfold lexLe
  rcases lt_trichotomy p.1 q.1 with h | h | h
  · exact Or.inl (Or.inl h)
  · rcases le_total p.2 q.2 with h2 | h2
    · exact Or.inl (Or.inr ⟨h, h2⟩)
    · exact Or.inr (Or.inr ⟨h.symm, h2⟩)
  · exact Or.inr (Or.inl h)⟩

instance : IsTrans (ℚ × ℚ) lexLe := ⟨fun p q r hpq hqr => by
  unfold lexLe at *
  rcases hpq with h | ⟨he, h2⟩ <;> rcases hqr with h' | ⟨he', h2'⟩
  · exact Or.inl (h.trans h')
  · exact Or.inl (he' ▸ h)
  · exact Or.inl (he ▸ h')
  · exact Or.inr ⟨he.trans he', h2.trans h2'⟩⟩

instance : IsAntisymm (ℚ × ℚ) lexLe := ⟨fun p q hpq hqp => by
  unfold lexLe at *
  rcases hpq with h | ⟨he, h2⟩ <;> rcases hqp with h' | ⟨he', h2'⟩
  · exact absurd (h.trans h') (lt_irrefl _)
  · exact absurd h (not_lt.2 he'.le)
  · exact absurd h' (not_lt.2 he.le)
  · exact Prod.ext he (le_antisymm h2 h2')⟩

theorem keyLe_of_le_of_lex {col : Fin 2} {p q : ℚ × ℚ}
    (h1 : colv col p ≤ colv col q) (h2 : lexLe p q) : keyLe col p q :=
  (lt_or_eq_of_le h1).elim Or.inl fun h => Or.inr ⟨h, h2⟩

theorem keyLe_colv_le {col : Fin 2} {p q : ℚ × ℚ} (h : keyLe col p q) :
    colv col p ≤ colv col q :=
  h.elim le_of_lt fun h => le_of_eq h.1

/-- `np.unique(x, axis=0)`: the distinct rows in lexicographic order. -/
def npUnique (x : List (ℚ × ℚ)) : List (ℚ × ℚ) :=
  List.insertionSort lexLe x.dedup

/-- `preprocess(x, col)` from `bd.py`: `np.unique` followed by a stable sort
of the rows by column `col`. -/
def preprocess (x : List (ℚ × ℚ)) (col : Fin 2) : List (ℚ × ℚ) :=
  List.insertionSort (colLe col) (npUnique x)

/-- Python's `min` of a non-empty list; the `[]` case never arises because the
drivers guard against empty inputs first (`min([])` raises). -/
def listMin {α : Type} [LinearOrder α] [Inhabited α] : List α → α
  | [] => default
  | x :: xs => xs.foldl min x

/-- Python's `max` of a non-empty list. -/
def listMax {α : Type} [LinearOrder α] [Inhabited α] : List α → α
  | [] => default
  | x :: xs => xs.foldl max x

theorem foldl_min_le_init {α : Type} [LinearOrder α] (l : List α) (a : α) :
    l.foldl min a ≤ a := by
  induction l generalizing a with
  | nil => exact le_refl a
  | cons b t ih => exact (ih (min a b)).trans (min_le_left a b)

theorem foldl_min_le_mem {α : Type} [LinearOrder α] {l : List α} {x : α}
    (hx : x ∈ l) (a : α) : l.foldl min a ≤ x := by
  induction l generalizing a with
  | nil => cases hx
  | cons b t ih =>
    rcases List.mem_cons.1 hx with rfl | hx
    · exact (foldl_min_le_init t (min a x)).trans (min_le_right a x)
    · exact ih hx (min a b)

theorem foldl_min_mem {α : Type} [LinearOrder α] (l : List α) (a : α) :
    l.foldl min a ∈ a :: l := by
  induction l generalizing a with
  | nil => exact List.mem_singleton.2 rfl
  | cons b t ih =>
    show List.foldl min (min a b) t ∈ a :: b :: t
    rcases List.mem_cons.1 (ih (min a b)) with h | h
    · rcases min_choice a b with h' | h'
      · rw [h, h']; exact List.mem_cons_self _ _
      · rw [h, h']; exact List.mem_cons.2 (Or.inr (List.mem_cons_self _ _))
    · exact List.mem_cons.2 (Or.inr (List.mem_cons.2 (Or.inr h)))

theorem init_le_foldl_max {α : Type} [LinearOrder α] (l : List α) (a : α) :
    a ≤ l.foldl max a := by
  induction l generalizing a with
  | nil => exact le_refl a
  | cons b t ih => exact (le_max_left a b).trans (ih (max a b))

theorem mem_le_foldl_max {α : Type} [LinearOrder α] {l : List α} {x : α}
    (hx : x ∈ l) (a : α) : x ≤ l.foldl max a := by
  induction l generalizing a with
  | nil => cases hx
  | cons b t ih =>
    rcases List.mem_cons.1 hx with rfl | hx
    · exact (le_max_right a x).trans (init_le_foldl_max t (max a x))
    · exact ih hx (max a b)

theorem foldl_max_mem {α : Type} [LinearOrder α] (l : List α) (a : α) :
    l.foldl max a ∈ a :: l := by
  induction l generalizing a with
  | nil => exact List.mem_singleton.2 rfl
  | cons b t ih =>
    show List.foldl max (max a b) t ∈ a :: b :: t
    rcases List.mem_cons.1 (ih (max a b)) with h | h
    · rcases max_choice a b with h' | h'
      · rw [h, h']; exact List.mem_cons_self _ _
      · rw [h, h']; exact List.mem_cons.2 (Or.inr (List.mem_cons_self _ _))
    · exact List.mem_cons.2 (Or.inr (List.mem_cons.2 (Or.inr h)))

theorem listMin_le {α : Type} [LinearOrder α] [Inhabited α] {l : List α} {x : α}
    (hx : x ∈ l) : listMin l ≤ x := by
  cases l with
  | nil => cases hx
  | cons a t =>
    rcases List.mem_cons.1 hx with rfl | hx
    · exact foldl_min_le_init t x
    · exact foldl_min_le_mem hx a

theorem le_listMax {α : Type} [LinearOrder α] [Inhabited α] {l : List α} {x : α}
    (hx : x ∈ l) : x ≤ listMax l := by
  cases l with
  | nil => cases hx
  | cons a t =>
    rcases List.mem_cons.1 hx with rfl | hx
    · exact init_le_foldl_max t x
    · exact mem_le_foldl_max hx a

theorem listMin_mem {α : Type} [LinearOrder α] [Inhabited α] {l : List α}
    (h : l ≠ []) : listMin l ∈ l := by
  cases l with
  | nil => exact absurd rfl h
  | cons a t => exact foldl_min_mem t a

theorem listMax_mem {α : Type} [LinearOrder α] [Inhabited α] {l : List α}
    (h : l ≠ []) : listMax l ∈ l := by
  cases l with
  | nil => exact absurd rfl h
  | cons a t => exact foldl_max_mem t a

theorem listMin_lt_listMax {α : Type} [LinearOrder α] [Inhabited α] {l : List α}
    (h2 : 2 ≤ l.length) (hnd : l.Nodup) : listMin l < listMax l := by
  match l with
  | a :: b :: t =>
    have hab : a ≠ b := by
      intro h
      exact (List.nodup_cons.1 hnd).1 (h ▸ List.mem_cons_self b t)
    have ha : a ∈ a :: b :: t := List.mem_cons_self _ _
    have hb : b ∈ a :: b :: t := List.mem_cons.2 (Or.inr (List.mem_cons_self _ _))
    refine lt_of_le_of_ne ((listMin_le ha).trans (le_listMax ha)) ?_
    intro he
    have h1 : listMin (a :: b :: t) = a := le_antisymm (listMin_le ha) (he ▸ le_listMax ha)
    have hbmin : listMin (a :: b :: t) = b := le_antisymm (listMin_le hb) (he ▸ le_listMax hb)
    exact hab (h1.symm.trans hbmin)

theorem sorted_orderedInsert_key (col : Fin 2) (a : ℚ × ℚ) (s : List (ℚ × ℚ))
    (hs : s.Sorted (keyLe col)) (ha : ∀ b ∈ s, lexLe a b) :
    (s.orderedInsert (colLe col) a).Sorted (keyLe col) := by
  induction s with
  | nil => simp
  | cons b t ih =>
    by_cases h : colLe col a b
    · rw [List.orderedInsert, if_pos h]
      refine List.sorted_cons.2 ⟨fun x hx => ?_, hs⟩
      have hbx : colv col a ≤ colv col x := by
        rcases List.mem_cons.1 hx with rfl | hx
        · exact h
        · exact h.trans (keyLe_colv_le ((List.sorted_cons.1 hs).1 x hx))
      exact keyLe_of_le_of_lex hbx (ha x hx)
    · rw [List.orderedInsert, if_neg h]
      have hba : colv col b < colv col a := lt_of_not_le h
      refine List.sorted_cons.2 ⟨fun x hx => ?_, ?_⟩
      · rcases List.mem_cons.1 (((List.perm_orderedInsert (colLe col) a t).mem_iff).1 hx) with rfl | hx
        · exact Or.inl hba
        · exact (List.sorted_cons.1 hs).1 x hx
      · exact ih hs.of_cons fun x hx => ha x (List.mem_cons.2 (Or.inr hx))

theorem sorted_insertionSort_key (col : Fin 2) (l : List (ℚ × ℚ))
    (hl : l.Sorted lexLe) :
    (List.insertionSort (colLe col) l).Sorted (keyLe col) := by
  induction l with
  | nil => simp
  | cons a t ih =>
    rw [List.insertionSort]
    refine sorted_orderedInsert_key col a _ (ih hl.of_cons) ?_
    intro b hb
    exact (List.sorted_cons.1 hl).1 b (((List.perm_insertionSort (colLe col) t).mem_iff).1 hb)

theorem npUnique_sorted (x : List (ℚ × ℚ)) : (npUnique x).Sorted lexLe :=
  List.sorted_insertionSort lexLe x.dedup

theorem npUnique_perm_dedup (x : List (ℚ × ℚ)) : (npUnique x).Perm x.dedup :=
  List.perm_insertionSort _ _

theorem preprocess_perm_dedup (x : List (ℚ × ℚ)) (col : Fin 2) :
    (preprocess x col).Perm x.dedup :=
  (List.perm_insertionSort _ _).trans (npUnique_perm_dedup x)

theorem mem_preprocess {p : ℚ × ℚ} {x : List (ℚ × ℚ)} {col : Fin 2} :
    p ∈ preprocess x col ↔ p ∈ x := by
  rw [(preprocess_perm_dedup x col).mem_iff, List.mem_dedup]

theorem preprocess_sorted (x : List (ℚ × ℚ)) (col : Fin 2) :
    (preprocess x col).Sorted (keyLe col) :=
  sorted_insertionSort_key col _ (npUnique_sorted x)

theorem npUnique_eq_of_perm {x y : List (ℚ × ℚ)} (h : x.Perm y) :
    npUnique x = npUnique y :=
  List.eq_of_perm_of_sorted
    ((npUnique_perm_dedup x).trans ((h.dedup).trans (npUnique_perm_dedup y).symm))
    (npUnique_sorted x) (npUnique_sorted y)

theorem preprocess_eq_of_perm {x y : List (ℚ × ℚ)} (h : x.Perm y) (col : Fin 2) :
    preprocess x col = preprocess y col := by
  unfold preprocess
  rw [npUnique_eq_of_perm h]

theorem preprocess_cons_of_mem {p : ℚ × ℚ} {x : List (ℚ × ℚ)} (h : p ∈ x)
    (col : Fin 2) : preprocess (p :: x) col = preprocess x col := by
  unfold preprocess npUnique
  rw [List.dedup_cons_of_mem h]

/-- Array element access `l[i]`; the index ranges used by the algorithms
below stay in bounds on valid data. -/
def nthR (l : List ℝ) (i : ℕ) : ℝ := l.getD i 0

/-- Knot spacing `hk[i] = x[i+1] - x[i]`. -/
noncomputable def hDiff (xs : List ℝ) (i : ℕ) : ℝ := nthR xs (i + 1) - nthR xs i

/-- Secant slope `mk[i] = (y[i+1] - y[i]) / hk[i]`. -/
noncomputable def secant (xs ys : List ℝ) (i : ℕ) : ℝ :=
  (nthR ys (i + 1) - nthR ys i) / hDiff xs i

/-- `np.sign`. -/
noncomputable def npSign (x : ℝ) : ℝ :=
  if 0 < x then 1 else if x < 0 then -1 else 0

/-- scipy `PchipInterpolator._edge_case`: one-sided three-point derivative
estimate at an end knot, with the shape-preserving corrections. -/
noncomputable def edgeCase (h0 h1 m0 m1 : ℝ) : ℝ :=
  let d := ((2 * h0 + h1) * m0 - h0 * m1) / (h0 + h1)
  if npSign d ≠ npSign m0 then 0
  else if npSign m0 ≠ npSign m1 ∧ |d| > 3 * |m0| then 3 * m0
  else d

/-- scipy `PchipInterpolator._find_derivatives`: the derivative `dk[k]` of the
shape-preserving interpolant.  With exactly two knots both derivatives equal
the single secant slope; interior derivatives are the weighted harmonic mean
of the neighbouring slopes (or `0` across a sign change or flat slope). -/
noncomputable def pchipD (xs ys : List ℝ) (k : ℕ) : ℝ :=
  let n := xs.length
  if n = 2 then secant xs ys 0
  else if k = 0 then edgeCase (hDiff xs 0) (hDiff xs 1) (secant xs ys 0) (secant xs ys 1)
  else if k = n - 1 then
    edgeCase (hDiff xs (n - 2)) (hDiff xs (n - 3)) (secant xs ys (n - 2)) (secant xs ys (n - 3))
  else if npSign (secant xs ys k) ≠ npSign (secant xs ys (k - 1)) ∨
      secant xs ys k = 0 ∨ secant xs ys (k - 1) = 0 then 0
  else
    let w1 := 2 * hDiff xs k + hDiff xs (k - 1)
    let w2 := hDiff xs k + 2 * hDiff xs (k - 1)
    (w1 + w2) / (w1 / secant xs ys (k - 1) + w2 / secant xs ys k)

/-- Antiderivative of the cubic Hermite segment `k` (coefficients as built by
`CubicHermiteSpline`), evaluated at `u` relative to the left knot; it
vanishes at the left knot.  `segAnti k x[k+1]` is the full segment
integral. -/
noncomputable def segAnti (xs ys : List ℝ) (k : ℕ) (u : ℝ) : ℝ :=
  let h := hDiff xs k
  let m := secant xs ys k
  let d0 := pchipD xs ys k
  let d1 := pchipD xs ys (k + 1)
  let c2 := (3 * m - 2 * d0 - d1) / h
  let c3 := (d0 + d1 - 2 * m) / h ^ 2
  let s := u - nthR xs k
  nthR ys k * s + d0 * s ^ 2 / 2 + c2 * s ^ 3 / 3 + c3 * s ^ 4 / 4

/-- Index of the polynomial piece of a `PPoly` used at abscissa `t`: the last
knot interval containing `t`, clamped so that points outside the knot range
use the boundary pieces (extrapolation). -/
noncomputable def segIdx (xs : List ℝ) (t : ℝ) : ℕ :=
  min (xs.length - 2) ((xs.countP fun x => decide (x ≤ t)) - 1)

/-- Antiderivative of the pchip interpolant from the first knot to `t`,
extended outside the knot range by the boundary polynomials, matching
`PPoly.antiderivative` with extrapolation. -/
noncomputable def pchipAnti (xs ys : List ℝ) (t : ℝ) : ℝ :=
  (Finset.range (segIdx xs t)).sum (fun k => segAnti xs ys k (nthR xs (k + 1))) +
    segAnti xs ys (segIdx xs t) t

/-- `PchipInterpolator(xs, ys).integrate(a, b)` (an exact definite integral of
the piecewise cubic; for `a > b` it is minus the integral over `[b, a]`). -/
noncomputable def pchipIntegrate (xs ys : List ℝ) (a b : ℝ) : ℝ :=
  pchipAnti xs ys b - pchipAnti xs ys a

/-- `np.polyfit(xs, ys, 3)`: coefficients (highest degree first) of the
least-squares cubic, via the normal equations `(VᵀV)c = Vᵀy` of the
Vandermonde system. -/
noncomputable def polyfit3 (xs ys : List ℝ) : List ℝ :=
  let V : Matrix (Fin xs.length) (Fin 4) ℝ :=
    Matrix.of fun i j => nthR xs i ^ (3 - (j : ℕ))
  let G : Matrix (Fin 4) (Fin 4) ℝ := V.transpose * V
  let c := G⁻¹.mulVec (V.transpose.mulVec fun i => nthR ys i)
  [c 0, c 1, c 2, c 3]

/-- `np.polyint(p)`: antiderivative coefficients (highest degree first, zero
constant term). -/
noncomputable def polyint (p : List ℝ) : List ℝ :=
  (p.mapIdx fun i c => c / ((p.length - i : ℕ) : ℝ)) ++ [0]

/-- `np.polyval(p, x)`: Horner evaluation, highest coefficient first. -/
noncomputable def polyval (p : List ℝ) (x : ℝ) : ℝ :=
  p.foldl (fun acc c => acc * x + c) 0

/-- The definite integral of the fitted curve over `[a, b]`: the pchip
integral in pchip mode, `P(b) - P(a)` of the antiderivative of the cubic
least-squares fit in polynomial mode. -/
noncomputable def fitIntegral (pchip : Bool) (xs ys : List ℝ) (a b : ℝ) : ℝ :=
  if pchip then pchipIntegrate xs ys a b
  else polyval (polyint (polyfit3 xs ys)) b - polyval (polyint (polyfit3 xs ys)) a

/-- `rate1` in `bdsnr`: first column of the preprocessed set (sorted by
rate). -/
def snrRates (s : List (ℚ × ℚ)) : List ℚ := (preprocess s 0).map Prod.fst

/-- `psnr1` in `bdsnr`. -/
def snrPsnrs (s : List (ℚ × ℚ)) : List ℚ := (preprocess s 0).map Prod.snd

/-- `list(map(math.log, rate))`. -/
noncomputable def logList (l : List ℚ) : List ℝ := l.map fun r => Real.log (r : ℝ)

/-- Embedding of the rational samples into `ℝ`. -/
noncomputable def castList (l : List ℚ) : List ℝ := l.map fun q => (q : ℝ)

noncomputable def snrLogRates (s : List (ℚ × ℚ)) : List ℝ := logList (snrRates s)

/-- `min_int = max(min(log_rate1), min(log_rate2))` in `bdsnr`. -/
noncomputable def snrMinInt (s1 s2 : List (ℚ × ℚ)) : ℝ :=
  max (listMin (snrLogRates s1)) (listMin (snrLogRates s2))

/-- `max_int = min(max(log_rate1), max(log_rate2))` in `bdsnr`. -/
noncomputable def snrMaxInt (s1 s2 : List (ℚ × ℚ)) : ℝ :=
  min (listMax (snrLogRates s1)) (listMax (snrLogRates s2))

/-- Well-formedness check performed by the `PchipInterpolator` constructor in
`bdsnr`: at least two knots and strictly increasing abscissae.  (scipy checks
the log-rates; since the rates are positive at this point and `log` is
strictly monotone, that is equivalent to the rates being strictly
increasing.) -/
def snrKnotsOK (s : List (ℚ × ℚ)) : Prop :=
  2 ≤ (snrRates s).length ∧ (snrRates s).Pairwise (· < ·)

instance (s : List (ℚ × ℚ)) : Decidable (snrKnotsOK s) := by
  unfold snrKnotsOK; infer_instance

noncomputable def snrInt1 (s1 s2 : List (ℚ × ℚ)) (pchip : Bool) : ℝ :=
  fitIntegral pchip (snrLogRates s1) (castList (snrPsnrs s1)) (snrMinInt s1 s2) (snrMaxInt s1 s2)

noncomputable def snrInt2 (s1 s2 : List (ℚ × ℚ)) (pchip : Bool) : ℝ :=
  fitIntegral pchip (snrLogRates s2) (castList (snrPsnrs s2)) (snrMinInt s1 s2) (snrMaxInt s1 s2)

/-- Lines 91-95 of `bd.py`: the average quality improvement, `0.0` on a
degenerate interval. -/
noncomputable def snrAvgDiff (s1 s2 : List (ℚ × ℚ)) (pchip : Bool) : ℝ :=
  if snrMaxInt s1 s2 ≠ snrMinInt s1 s2 then
    (snrInt2 s1 s2 pchip - snrInt1 s1 s2 pchip) / (snrMaxInt s1 s2 - snrMinInt s1 s2)
  else 0

/-- `bdsnr(metric_set1, metric_set2, pchip)`.  Failures (`math.log` domain
error, `min`/`max` on an empty sequence, interpolator construction) are
surfaced as `Except.error`. -/
noncomputable def bdsnr (set1 set2 : List (ℚ × ℚ)) (pchip : Bool) : Except BdErr ℝ :=
  if (∃ p ∈ preprocess set1 0, p.1 ≤ 0) ∨ (∃ p ∈ preprocess set2 0, p.1 ≤ 0) then
    .error .domain
  else if preprocess set1 0 = [] ∨ preprocess set2 0 = [] then .error .empty
  else if pchip = true ∧ ¬(snrKnotsOK set1 ∧ snrKnotsOK set2) then .error .badKnots
  else .ok (snrAvgDiff set1 set2 pchip)

/-- `rate1` in `bdrate`: first column of the set preprocessed by quality. -/
def rateRates (s : List (ℚ × ℚ)) : List ℚ := (preprocess s 1).map Prod.fst

/-- `psnr1` in `bdrate`. -/
def ratePsnrs (s : List (ℚ × ℚ)) : List ℚ := (preprocess s 1).map Prod.snd

noncomputable def rateLogRates (s : List (ℚ × ℚ)) : List ℝ := logList (rateRates s)

/-- `min_int = max(min(psnr1), min(psnr2))` in `bdrate` (quality space). -/
def rateMinInt (s1 s2 : List (ℚ × ℚ)) : ℚ :=
  max (listMin (ratePsnrs s1)) (listMin (ratePsnrs s2))

/-- `max_int = min(max(psnr1), max(psnr2))` in `bdrate`. -/
def rateMaxInt (s1 s2 : List (ℚ × ℚ)) : ℚ :=
  min (listMax (ratePsnrs s1)) (listMax (ratePsnrs s2))

/-- `PchipInterpolator(psnr, log_rate)` constructor check in `bdrate`. -/
def rateKnotsOK (s : List (ℚ × ℚ)) : Prop :=
  2 ≤ (ratePsnrs s).length ∧ (ratePsnrs s).Pairwise (· < ·)

instance (s : List (ℚ × ℚ)) : Decidable (rateKnotsOK s) := by
  unfold rateKnotsOK; infer_instance

noncomputable def rateInt1 (s1 s2 : List (ℚ × ℚ)) (pchip : Bool) : ℝ :=
  fitIntegral pchip (castList (ratePsnrs s1)) (rateLogRates s1)
    ((rateMinInt s1 s2 : ℚ) : ℝ) ((rateMaxInt s1 s2 : ℚ) : ℝ)

noncomputable def rateInt2 (s1 s2 : List (ℚ × ℚ)) (pchip : Bool) : ℝ :=
  fitIntegral pchip (castList (ratePsnrs s2)) (rateLogRates s2)
    ((rateMinInt s1 s2 : ℚ) : ℝ) ((rateMaxInt s1 s2 : ℚ) : ℝ)

/-- Line 148 of `bd.py`: `avg_exp_diff = (int2 - int1) / (max_int - min_int)`
(meaningful only on a non-degenerate interval; on a degenerate one the code
produces `nan`, handled in `bdrate` below). -/
noncomputable def rateAvgExpDiff (s1 s2 : List (ℚ × ℚ)) (pchip : Bool) : ℝ :=
  (rateInt2 s1 s2 pchip - rateInt1 s1 s2 pchip) /
    (((rateMaxInt s1 s2 : ℚ) : ℝ) - ((rateMinInt s1 s2 : ℚ) : ℝ))

/-- `bdrate(metric_set1, metric_set2, pchip)`.  On a degenerate interval both
definite integrals are exactly `0.0` and the numpy float64 division
`0.0/0.0` yields `nan` (with a RuntimeWarning, no exception); `nan > 200` is
false and `math.exp(nan)` is `nan`, so the call returns `nan` — modelled as
`Except.ok none`. -/
noncomputable def bdrate (set1 set2 : List (ℚ × ℚ)) (pchip : Bool) :
    Except BdErr (Option ℝ) :=
  if (∃ p ∈ preprocess set1 1, p.1 ≤ 0) ∨ (∃ p ∈ preprocess set2 1, p.1 ≤ 0) then
    .error .domain
  else if preprocess set1 1 = [] ∨ preprocess set2 1 = [] then .error .empty
  else if pchip = true ∧ ¬(rateKnotsOK set1 ∧ rateKnotsOK set2) then .error .badKnots
  else if rateMaxInt set1 set2 = rateMinInt set1 set2 then .ok none
  else
    .ok (some ((Real.exp (if rateAvgExpDiff set1 set2 pchip > 200 then 200
      else rateAvgExpDiff set1 set2 pchip) - 1) * 100))

/-- A point set on which `bdsnr` runs to completion: at least two distinct
sample points, strictly positive rates, and pairwise distinct rates. -/
def ValidSnrSet (s : List (ℚ × ℚ)) : Prop :=
  2 ≤ (preprocess s 0).length ∧ (∀ p ∈ s, 0 < p.1) ∧
    ((preprocess s 0).map Prod.fst).Nodup

/-- A point set on which `bdrate` runs to completion: at least two distinct
sample points, strictly positive rates, and pairwise distinct qualities. -/
def ValidRateSet (s : List (ℚ × ℚ)) : Prop :=
  2 ≤ (preprocess s 1).length ∧ (∀ p ∈ s, 0 < p.1) ∧
    ((preprocess s 1).map Prod.snd).Nodup

instance (s : List (ℚ × ℚ)) : Decidable (ValidSnrSet s) := by
  unfold ValidSnrSet; infer_instance

instance (s : List (ℚ × ℚ)) : Decidable (ValidRateSet s) := by
  unfold ValidRateSet; infer_instance

theorem colv_zero (p : ℚ × ℚ) : colv 0 p = p.1 := rfl

theorem colv_one (p : ℚ × ℚ) : colv 1 p = p.2 := rfl

/-- Validity gives exactly the property checked by the `PchipInterpolator`
constructor in `bdsnr`: strictly increasing rates after preprocessing. -/
theorem snrKnotsOK_of_valid {s : List (ℚ × ℚ)} (h : ValidSnrSet s) : snrKnotsOK s := by
  obtain ⟨h2, -, hnd⟩ := h
  constructor
  · simpa [snrRates] using h2
  · have hs : (preprocess s 0).Pairwise (keyLe 0) := preprocess_sorted s 0
    have hle : (preprocess s 0).Pairwise fun a b => a.1 ≤ b.1 := by
      refine hs.imp ?_
      intro a b hab
      have hc := keyLe_colv_le hab
      rw [colv_zero, colv_zero] at hc
      exact hc
    have hne : (preprocess s 0).Pairwise fun a b => a.1 ≠ b.1 := List.pairwise_map.1 hnd
    have hlt : (preprocess s 0).Pairwise fun a b => a.1 < b.1 :=
      (hle.and hne).imp fun hb => lt_of_le_of_ne hb.1 hb.2
    unfold snrRates
    exact List.pairwise_map.2 hlt

/-- Validity gives the property checked by the `PchipInterpolator` constructor
in `bdrate`: strictly increasing qualities after preprocessing. -/
theorem rateKnotsOK_of_valid {s : List (ℚ × ℚ)} (h : ValidRateSet s) : rateKnotsOK s := by
  obtain ⟨h2, -, hnd⟩ := h
  constructor
  · simpa [ratePsnrs] using h2
  · have hs : (preprocess s 1).Pairwise (keyLe 1) := preprocess_sorted s 1
    have hle : (preprocess s 1).Pairwise fun a b => a.2 ≤ b.2 := by
      refine hs.imp ?_
      intro a b hab
      have hc := keyLe_colv_le hab
      rw [colv_one, colv_one] at hc
      exact hc
    have hne : (preprocess s 1).Pairwise fun a b => a.2 ≠ b.2 := List.pairwise_map.1 hnd
    have hlt : (preprocess s 1).Pairwise fun a b => a.2 < b.2 :=
      (hle.and hne).imp fun hb => lt_of_le_of_ne hb.1 hb.2
    unfold ratePsnrs
    exact List.pairwise_map.2 hlt

/-- On valid inputs `bdsnr` reaches line 91 and returns the average
improvement. -/
theorem bdsnr_of_valid {s1 s2 : List (ℚ × ℚ)} (h1 : ValidSnrSet s1)
    (h2 : ValidSnrSet s2) (pchip : Bool) :
    bdsnr s1 s2 pchip = .ok (snrAvgDiff s1 s2 pchip) := by
  obtain ⟨hl1, hp1, -⟩ := id h1
  obtain ⟨hl2, hp2, -⟩ := id h2
  have hd : ¬((∃ p ∈ preprocess s1 0, p.1 ≤ 0) ∨ (∃ p ∈ preprocess s2 0, p.1 ≤ 0)) := by
    rintro (⟨p, hp, hple⟩ | ⟨p, hp, hple⟩)
    · exact absurd (hp1 p (mem_preprocess.1 hp)) (not_lt.2 hple)
    · exact absurd (hp2 p (mem_preprocess.1 hp)) (not_lt.2 hple)
  have he : ¬(preprocess s1 0 = [] ∨ preprocess s2 0 = []) := by
    rintro (h | h)
    · rw [h] at hl1; simp at hl1
    · rw [h] at hl2; simp at hl2
  have hk : ¬(pchip = true ∧ ¬(snrKnotsOK s1 ∧ snrKnotsOK s2)) := by
    rintro ⟨-, hn⟩
    exact hn ⟨snrKnotsOK_of_valid h1, snrKnotsOK_of_valid h2⟩
  unfold bdsnr
  rw [if_neg hd, if_neg he, if_neg hk]

/-- On valid inputs `bdrate` reaches line 148; the result depends only on
whether the quality interval is degenerate. -/
theorem bdrate_of_valid {s1 s2 : List (ℚ × ℚ)} (h1 : ValidRateSet s1)
    (h2 : ValidRateSet s2) (pchip : Bool) :
    bdrate s1 s2 pchip =
      if rateMaxInt s1 s2 = rateMinInt s1 s2 then .ok none
      else .ok (some ((Real.exp (if rateAvgExpDiff s1 s2 pchip > 200 then 200
        else rateAvgExpDiff s1 s2 pchip) - 1) * 100)) := by
  obtain ⟨hl1, hp1, -⟩ := id h1
  obtain ⟨hl2, hp2, -⟩ := id h2
  have hd : ¬((∃ p ∈ preprocess s1 1, p.1 ≤ 0) ∨ (∃ p ∈ preprocess s2 1, p.1 ≤ 0)) := by
    rintro (⟨p, hp, hple⟩ | ⟨p, hp, hple⟩)
    · exact absurd (hp1 p (mem_preprocess.1 hp)) (not_lt.2 hple)
    · exact absurd (hp2 p (mem_preprocess.1 hp)) (not_lt.2 hple)
  have he : ¬(preprocess s1 1 = [] ∨ preprocess s2 1 = []) := by
    rintro (h | h)
    · rw [h] at hl1; simp at hl1
    · rw [h] at hl2; simp at hl2
  have hk : ¬(pchip = true ∧ ¬(rateKnotsOK s1 ∧ rateKnotsOK s2)) := by
    rintro ⟨-, hn⟩
    exact hn ⟨rateKnotsOK_of_valid h1, rateKnotsOK_of_valid h2⟩
  unfold bdrate
  rw [if_neg hd, if_neg he, if_neg hk]

/-- Every quantity in `bdsnr` is a function of the two preprocessed lists. -/
theorem bdsnr_congr {s1 s2 t1 t2 : List (ℚ × ℚ)}
    (e1 : preprocess s1 0 = preprocess t1 0) (e2 : preprocess s2 0 = preprocess t2 0)
    (pchip : Bool) : bdsnr s1 s2 pchip = bdsnr t1 t2 pchip := by
  simp only [bdsnr, snrAvgDiff, snrInt1, snrInt2, snrMinInt, snrMaxInt, snrKnotsOK,
    snrLogRates, snrRates, snrPsnrs, e1, e2]

/-- Every quantity in `bdrate` is a function of the two preprocessed lists. -/
theorem bdrate_congr {s1 s2 t1 t2 : List (ℚ × ℚ)}
    (e1 : preprocess s1 1 = preprocess t1 1) (e2 : preprocess s2 1 = preprocess t2 1)
    (pchip : Bool) : bdrate s1 s2 pchip = bdrate t1 t2 pchip := by
  simp only [bdrate, rateAvgExpDiff, rateInt1, rateInt2, rateMinInt, rateMaxInt,
    rateKnotsOK, rateLogRates, rateRates, ratePsnrs, e1, e2]

/-- C7: permuting the points inside either input set (before normalization)
changes the result of neither `bdsnr` nor `bdrate`, in either mode. -/
theorem C7_order_invariance {s1 s2 t1 t2 : List (ℚ × ℚ)}
    (h1 : s1.Perm t1) (h2 : s2.Perm t2) (pchip : Bool) :
    bdsnr s1 s2 pchip = bdsnr t1 t2 pchip ∧ bdrate s1 s2 pchip = bdrate t1 t2 pchip :=
  ⟨bdsnr_congr (preprocess_eq_of_perm h1 0) (preprocess_eq_of_perm h2 0) pchip,
    bdrate_congr (preprocess_eq_of_perm h1 1) (preprocess_eq_of_perm h2 1) pchip⟩

/-- C7 witness at concrete permuted inputs. -/
theorem C7_witness :
    bdsnr [((1:ℚ),(1:ℚ)), (2,2)] [((4:ℚ),(3:ℚ)), (8,5)] true
        = bdsnr [((2:ℚ),(2:ℚ)), (1,1)] [((8:ℚ),(5:ℚ)), (4,3)] true ∧
      bdrate [((1:ℚ),(1:ℚ)), (2,2)] [((4:ℚ),(3:ℚ)), (8,5)] true
        = bdrate [((2:ℚ),(2:ℚ)), (1,1)] [((8:ℚ),(5:ℚ)), (4,3)] true :=
  C7_order_invariance (List.Perm.swap _ _ _) (List.Perm.swap _ _ _) true

/-- C8: appending an exact duplicate of a point already present in either
input set changes the result of neither `bdsnr` nor `bdrate`. -/
theorem C8_duplicate_invariance {s1 s2 : List (ℚ × ℚ)} {p q : ℚ × ℚ}
    (hp : p ∈ s1) (hq : q ∈ s2) (pchip : Bool) :
    (bdsnr (p :: s1) s2 pchip = bdsnr s1 s2 pchip ∧
      bdsnr s1 (q :: s2) pchip = bdsnr s1 s2 pchip) ∧
    (bdrate (p :: s1) s2 pchip = bdrate s1 s2 pchip ∧
      bdrate s1 (q :: s2) pchip = bdrate s1 s2 pchip) :=
  ⟨⟨bdsnr_congr (preprocess_cons_of_mem hp 0) rfl pchip,
      bdsnr_congr rfl (preprocess_cons_of_mem hq 0) pchip⟩,
    ⟨bdrate_congr (preprocess_cons_of_mem hp 1) rfl pchip,
      bdrate_congr rfl (preprocess_cons_of_mem hq 1) pchip⟩⟩

/-- C8 witness at concrete inputs with a duplicated point. -/
theorem C8_witness :
    (bdsnr [((1:ℚ),(1:ℚ)), (1,1), (2,2)] [((4:ℚ),(3:ℚ)), (8,5)] true
        = bdsnr [((1:ℚ),(1:ℚ)), (2,2)] [((4:ℚ),(3:ℚ)), (8,5)] true ∧
      bdsnr [((1:ℚ),(1:ℚ)), (2,2)] [((8:ℚ),(5:ℚ)), (4,3), (8,5)] true
        = bdsnr [((1:ℚ),(1:ℚ)), (2,2)] [((4:ℚ),(3:ℚ)), (8,5)] true) ∧
    (bdrate [((1:ℚ),(1:ℚ)), (1,1), (2,2)] [((4:ℚ),(3:ℚ)), (8,5)] true
        = bdrate [((1:ℚ),(1:ℚ)), (2,2)] [((4:ℚ),(3:ℚ)), (8,5)] true ∧
      bdrate [((1:ℚ),(1:ℚ)), (2,2)] [((8:ℚ),(5:ℚ)), (4,3), (8,5)] true
        = bdrate [((1:ℚ),(1:ℚ)), (2,2)] [((4:ℚ),(3:ℚ)), (8,5)] true) :=
  C8_duplicate_invariance (by decide) (by decide) true

/-- C4: a point with rate ≤ 0 in either input set makes both `bdsnr` and
`bdrate` fail with the logarithm domain error, in both modes; no scalar
result is returned. -/
theorem C4_log_domain_error {s1 s2 : List (ℚ × ℚ)}
    (h : (∃ p ∈ s1, p.1 ≤ 0) ∨ (∃ p ∈ s2, p.1 ≤ 0)) (pchip : Bool) :
    bdsnr s1 s2 pchip = .error .domain ∧ bdrate s1 s2 pchip = .error .domain := by
  have hs : ∀ col : Fin 2,
      (∃ p ∈ preprocess s1 col, p.1 ≤ 0) ∨ (∃ p ∈ preprocess s2 col, p.1 ≤ 0) := by
    intro col
    rcases h with ⟨p, hp, hle⟩ | ⟨p, hp, hle⟩
    · exact Or.inl ⟨p, mem_preprocess.2 hp, hle⟩
    · exact Or.inr ⟨p, mem_preprocess.2 hp, hle⟩
  constructor
  · unfold bdsnr
    rw [if_pos (hs 0)]
  · unfold bdrate
    rw [if_pos (hs 1)]

/-- C4 witness: a negative rate in the first set. -/
theorem C4_witness :
    bdsnr [((-1:ℚ),(1:ℚ)), (2,2)] [((1:ℚ),(1:ℚ)), (2,2)] true = .error .domain ∧
      bdrate [((-1:ℚ),(1:ℚ)), (2,2)] [((1:ℚ),(1:ℚ)), (2,2)] true = .error .domain :=
  C4_log_domain_error (Or.inl ⟨(-1, 1), by decide, by decide⟩) true

theorem listMin_pair {α : Type} [LinearOrder α] [Inhabited α] (a b : α) :
    listMin [a, b] = min a b := rfl

theorem listMax_pair {α : Type} [LinearOrder α] [Inhabited α] (a b : α) :
    listMax [a, b] = max a b := rfl

/-- C1: for every pair of valid point sets whose overlap interval in log-rate
space is degenerate (`min_int == max_int`), `bdsnr` returns exactly `0.0`
and does not fail, in both pchip and polynomial modes. -/
theorem C1_bdsnr_degenerate_zero {s1 s2 : List (ℚ × ℚ)} (h1 : ValidSnrSet s1)
    (h2 : ValidSnrSet s2) (hdeg : snrMinInt s1 s2 = snrMaxInt s1 s2) (pchip : Bool) :
    bdsnr s1 s2 pchip = .ok 0 := by
  rw [bdsnr_of_valid h1 h2 pchip]
  unfold snrAvgDiff
  rw [if_neg (not_ne_iff.2 hdeg.symm)]

/-- C1 witness: the log-rate domains `[log 1, log 2]` and `[log 2, log 4]`
meet at exactly `log 2`. -/
theorem C1_witness :
    bdsnr [((1:ℚ),(1:ℚ)), (2,2)] [((2:ℚ),(3:ℚ)), (4,4)] true = .ok 0 ∧
      bdsnr [((1:ℚ),(1:ℚ)), (2,2)] [((2:ℚ),(3:ℚ)), (4,4)] false = .ok 0 := by
  have e1 : snrLogRates [((1:ℚ),(1:ℚ)), (2,2)] = [Real.log 1, Real.log 2] := by
    have hp : preprocess [((1:ℚ),(1:ℚ)), (2,2)] 0 = [(1,1),(2,2)] := by decide
    unfold snrLogRates snrRates logList
    rw [hp]
    norm_num
  have e2 : snrLogRates [((2:ℚ),(3:ℚ)), (4,4)] = [Real.log 2, Real.log 4] := by
    have hp : preprocess [((2:ℚ),(3:ℚ)), (4,4)] 0 = [(2,3),(4,4)] := by decide
    unfold snrLogRates snrRates logList
    rw [hp]
    norm_num
  have hdeg : snrMinInt [((1:ℚ),(1:ℚ)), (2,2)] [((2:ℚ),(3:ℚ)), (4,4)] =
      snrMaxInt [((1:ℚ),(1:ℚ)), (2,2)] [((2:ℚ),(3:ℚ)), (4,4)] := by
    unfold snrMinInt snrMaxInt
    rw [e1, e2, listMin_pair, listMin_pair, listMax_pair, listMax_pair]
    have l2 : (0:ℝ) ≤ Real.log 2 := Real.log_nonneg (by norm_num)
    have l24 : Real.log 2 ≤ Real.log 4 := Real.log_le_log (by norm_num) (by norm_num)
    rw [Real.log_one, min_eq_left l2, min_eq_left l24, max_eq_right l2,
      max_eq_right l24, min_eq_left l24]
  exact ⟨C1_bdsnr_degenerate_zero (by decide) (by decide) hdeg true,
    C1_bdsnr_degenerate_zero (by decide) (by decide) hdeg false⟩

/-- C6: comparing a valid point set with itself yields zero for both metrics,
in both modes. -/
theorem C6_identity {S : List (ℚ × ℚ)} (hs : ValidSnrSet S) (hr : ValidRateSet S)
    (pchip : Bool) :
    bdsnr S S pchip = .ok 0 ∧ bdrate S S pchip = .ok (some 0) := by
  constructor
  · rw [bdsnr_of_valid hs hs pchip]
    unfold snrAvgDiff
    rw [show snrInt2 S S pchip = snrInt1 S S pchip from rfl]
    split
    · rw [sub_self, zero_div]
    · rfl
  · rw [bdrate_of_valid hr hr pchip]
    have hne : rateMaxInt S S ≠ rateMinInt S S := by
      have hlt : listMin (ratePsnrs S) < listMax (ratePsnrs S) :=
        listMin_lt_listMax (by simpa [ratePsnrs] using hr.1) hr.2.2
      unfold rateMaxInt rateMinInt
      rw [max_self, min_self]
      exact ne_of_gt hlt
    rw [if_neg hne]
    have havg : rateAvgExpDiff S S pchip = 0 := by
      unfold rateAvgExpDiff
      rw [show rateInt2 S S pchip = rateInt1 S S pchip from rfl, sub_self, zero_div]
    rw [havg, if_neg (by norm_num)]
    simp [Real.exp_zero]

/-- C6 witness at a concrete valid set. -/
theorem C6_witness :
    bdsnr [((1:ℚ),(1:ℚ)), (2,2)] [((1:ℚ),(1:ℚ)), (2,2)] true = .ok 0 ∧
      bdrate [((1:ℚ),(1:ℚ)), (2,2)] [((1:ℚ),(1:ℚ)), (2,2)] true = .ok (some 0) :=
  C6_identity (by decide) (by decide) true

/-- C2 counterexample: on point sets with a degenerate quality interval
(`min_int == max_int == 2`), `bdrate` does not fail with a division error;
the numpy float64 division `0.0/0.0` produces `nan` (modelled `none`), which
propagates to the returned value. -/
theorem C2_counterexample :
    bdrate [((1:ℚ),(1:ℚ)), (2,2)] [((1:ℚ),(2:ℚ)), (2,3)] true = .ok none := by
  rw [bdrate_of_valid (by decide) (by decide) true, if_pos (by decide)]

/-- C2 (amended): for every pair of valid point sets whose quality overlap
interval is degenerate, `bdrate` raises no error and returns no numeric
scalar either: the unguarded division `0.0/0.0` yields `nan`, which survives
the clamp and the exponential, so the call returns `nan` (modelled `none`).
There is still no defined numeric fallback, asymmetric with `bdsnr`'s
`0.0`. -/
theorem C2_degenerate_nan {s1 s2 : List (ℚ × ℚ)} (h1 : ValidRateSet s1)
    (h2 : ValidRateSet s2) (hdeg : rateMaxInt s1 s2 = rateMinInt s1 s2)
    (pchip : Bool) : bdrate s1 s2 pchip = .ok none := by
  rw [bdrate_of_valid h1 h2 pchip, if_pos hdeg]

/-- C2 witness (polynomial mode, same degenerate quality interval). -/
theorem C2_witness :
    bdrate [((1:ℚ),(1:ℚ)), (2,2)] [((1:ℚ),(2:ℚ)), (2,3)] false = .ok none :=
  C2_degenerate_nan (by decide) (by decide) (by decide) false

/-- With exactly two knots scipy's pchip derivative is the single secant
slope, so for constant data `L` the interpolant is the constant `L` and its
definite integral is `L * (b - a)`. -/
theorem pchipIntegrate_pair_const (x0 x1 L a b : ℝ) :
    pchipIntegrate [x0, x1] [L, L] a b = L * (b - a) := by
  have hd : ∀ k, pchipD [x0, x1] [L, L] k = 0 := by
    intro k
    simp [pchipD, secant, nthR]
  have hidx : ∀ t : ℝ, segIdx [x0, x1] t = 0 := by
    intro t
    simp [segIdx]
  have hA : ∀ t : ℝ, pchipAnti [x0, x1] [L, L] t = L * (t - x0) := by
    intro t
    unfold pchipAnti
    rw [hidx t]
    simp [segAnti, hd, secant, nthR]
  unfold pchipIntegrate
  rw [hA, hA]
  ring

/-- `rateInt1` when the first set preprocesses to two points with equal
rates: the fitted curve is the constant `log r`. -/
theorem rateInt1_pair {s1 : List (ℚ × ℚ)} (s2 : List (ℚ × ℚ)) {r q0 q1 : ℚ}
    (hpre : preprocess s1 1 = [(r, q0), (r, q1)]) :
    rateInt1 s1 s2 true =
      Real.log (r : ℝ) * (((rateMaxInt s1 s2 : ℚ) : ℝ) - ((rateMinInt s1 s2 : ℚ) : ℝ)) := by
  unfold rateInt1 fitIntegral rateLogRates rateRates ratePsnrs logList castList
  rw [hpre, if_pos rfl]
  simp only [List.map_cons, List.map_nil]
  exact pchipIntegrate_pair_const _ _ _ _ _

/-- `rateInt2` when the second set preprocesses to two points with equal
rates. -/
theorem rateInt2_pair (s1 : List (ℚ × ℚ)) {s2 : List (ℚ × ℚ)} {r q0 q1 : ℚ}
    (hpre : preprocess s2 1 = [(r, q0), (r, q1)]) :
    rateInt2 s1 s2 true =
      Real.log (r : ℝ) * (((rateMaxInt s1 s2 : ℚ) : ℝ) - ((rateMinInt s1 s2 : ℚ) : ℝ)) := by
  unfold rateInt2 fitIntegral rateLogRates rateRates ratePsnrs logList castList
  rw [hpre, if_pos rfl]
  simp only [List.map_cons, List.map_nil]
  exact pchipIntegrate_pair_const _ _ _ _ _

/-- C3: in `bdrate`, `avg_exp_diff` is clamped to at most 200 before
exponentiation: above the clamp the result is `(exp 200 - 1) * 100`, at or
below it the result is `(exp avg_exp_diff - 1) * 100` (stated on the
non-degenerate interval where `avg_exp_diff` is the number the code
computes). -/
theorem C3_clamp_boundary {s1 s2 : List (ℚ × ℚ)} (h1 : ValidRateSet s1)
    (h2 : ValidRateSet s2) (hne : rateMaxInt s1 s2 ≠ rateMinInt s1 s2) (pchip : Bool) :
    (rateAvgExpDiff s1 s2 pchip > 200 →
      bdrate s1 s2 pchip = .ok (some ((Real.exp 200 - 1) * 100))) ∧
    (rateAvgExpDiff s1 s2 pchip ≤ 200 →
      bdrate s1 s2 pchip = .ok (some ((Real.exp (rateAvgExpDiff s1 s2 pchip) - 1) * 100))) := by
  rw [bdrate_of_valid h1 h2 pchip, if_neg hne]
  constructor
  · intro h
    rw [if_pos h]
  · intro h
    rw [if_neg (not_lt.2 h)]

set_option maxRecDepth 40000 in
/-- C3 witness: constant fits `0` and `log (10^100)` over the quality
interval `[0, 1]` force `avg_exp_diff = 100 * log 10 > 200`, and the result
equals the clamped value `(exp 200 - 1) * 100`. -/
theorem C3_witness :
    rateAvgExpDiff [((1:ℚ),(0:ℚ)), (1,1)] [((10:ℚ)^100,(0:ℚ)), (10^100,1)] true > 200 ∧
      bdrate [((1:ℚ),(0:ℚ)), (1,1)] [((10:ℚ)^100,(0:ℚ)), (10^100,1)] true =
        .ok (some ((Real.exp 200 - 1) * 100)) := by
  have hpre1 : preprocess [((1:ℚ),(0:ℚ)), (1,1)] 1 = [(1,0),(1,1)] := by decide
  have hpre2 : preprocess [((10:ℚ)^100,(0:ℚ)), (10^100,1)] 1
      = [(10^100,0),(10^100,1)] := by decide
  have hint1 := rateInt1_pair [((10:ℚ)^100,(0:ℚ)), (10^100,1)] hpre1
  have hint2 := rateInt2_pair [((1:ℚ),(0:ℚ)), (1,1)] hpre2
  have hmin : rateMinInt [((1:ℚ),(0:ℚ)), (1,1)] [((10:ℚ)^100,(0:ℚ)), (10^100,1)] = 0 := by
    decide
  have hmax : rateMaxInt [((1:ℚ),(0:ℚ)), (1,1)] [((10:ℚ)^100,(0:ℚ)), (10^100,1)] = 1 := by
    decide
  have havg : rateAvgExpDiff [((1:ℚ),(0:ℚ)), (1,1)] [((10:ℚ)^100,(0:ℚ)), (10^100,1)] true
      = Real.log ((10:ℝ)^100) := by
    unfold rateAvgExpDiff
    rw [hint1, hint2, hmin, hmax]
    push_cast
    rw [Real.log_one]
    ring
  have hgt : rateAvgExpDiff [((1:ℚ),(0:ℚ)), (1,1)] [((10:ℚ)^100,(0:ℚ)), (10^100,1)] true
      > 200 := by
    rw [havg, Real.log_pow]
    have h2l : (2:ℝ) < Real.log 10 := by
      have he : Real.exp 2 < 10 := by
        have h1 : Real.exp 1 < 2.7182818286 := Real.exp_one_lt_d9
        have he2 : Real.exp 2 = Real.exp 1 * Real.exp 1 := by
          rw [← Real.exp_add]; norm_num
        rw [he2]
        nlinarith [Real.exp_pos 1]
      calc (2:ℝ) = Real.log (Real.exp 2) := (Real.log_exp 2).symm
        _ < Real.log 10 := Real.log_lt_log (Real.exp_pos 2) he
    push_cast
    nlinarith
  exact ⟨hgt, (C3_clamp_boundary (by decide) (by decide) (by decide) true).1 hgt⟩

/-- C9: whenever `bdrate` returns a numeric scalar, that scalar lies strictly
above `-100` and at most `(exp 200 - 1) * 100`: the result is
`(exp z - 1) * 100` with `z` clamped to at most `200` and `exp z > 0`, so a
reported bitrate saving can never reach 100 percent. -/
theorem C9_bdrate_range {s1 s2 : List (ℚ × ℚ)} {pchip : Bool} {r : ℝ}
    (h : bdrate s1 s2 pchip = .ok (some r)) :
    -100 < r ∧ r ≤ (Real.exp 200 - 1) * 100 := by
  unfold bdrate at h
  split at h
  · exact Except.noConfusion h
  split at h
  · exact Except.noConfusion h
  split at h
  · exact Except.noConfusion h
  split at h
  · exact Option.noConfusion (Except.ok.inj h)
  split at h
  · have hr := Option.some.inj (Except.ok.inj h)
    subst hr
    constructor
    · nlinarith [Real.exp_pos (200:ℝ)]
    · exact le_refl _
  · rename_i hc
    have hr := Option.some.inj (Except.ok.inj h)
    subst hr
    have hle := Real.exp_le_exp.2 (le_of_not_lt hc)
    constructor
    · nlinarith [Real.exp_pos (rateAvgExpDiff s1 s2 pchip)]
    · nlinarith

/-- `bdrate` of a two-point constant-rate set against itself (pchip mode)
evaluates to `0.0`. -/
theorem bdrate_pair_self_eval :
    bdrate [((1:ℚ),(0:ℚ)), (1,1)] [((1:ℚ),(0:ℚ)), (1,1)] true = .ok (some 0) := by
  have havg : rateAvgExpDiff [((1:ℚ),(0:ℚ)), (1,1)] [((1:ℚ),(0:ℚ)), (1,1)] true = 0 := by
    unfold rateAvgExpDiff
    rw [show rateInt2 [((1:ℚ),(0:ℚ)), (1,1)] [((1:ℚ),(0:ℚ)), (1,1)] true =
      rateInt1 [((1:ℚ),(0:ℚ)), (1,1)] [((1:ℚ),(0:ℚ)), (1,1)] true from rfl, sub_self,
      zero_div]
  rw [bdrate_of_valid (by decide) (by decide) true, if_neg (by decide), havg,
    if_neg (by norm_num)]
  simp [Real.exp_zero]

/-- C9 witness: a concrete call returning the scalar `0.0`, which satisfies
both bounds. -/
theorem C9_witness :
    bdrate [((1:ℚ),(0:ℚ)), (1,1)] [((1:ℚ),(0:ℚ)), (1,1)] true = .ok (some 0) ∧
      (-100 < (0:ℝ) ∧ (0:ℝ) ≤ (Real.exp 200 - 1) * 100) :=
  ⟨bdrate_pair_self_eval, C9_bdrate_range bdrate_pair_self_eval⟩

/-- `bdrate` of the constant-rate-1 set against the constant-rate-2 set
(pchip mode): `avg_exp_diff = log 2`, result `+100` percent. -/
theorem bdrate_one_two_eval :
    bdrate [((1:ℚ),(0:ℚ)), (1,1)] [((2:ℚ),(0:ℚ)), (2,1)] true = .ok (some 100) := by
  have hpre1 : preprocess [((1:ℚ),(0:ℚ)), (1,1)] 1 = [(1,0),(1,1)] := by decide
  have hpre2 : preprocess [((2:ℚ),(0:ℚ)), (2,1)] 1 = [(2,0),(2,1)] := by decide
  have hint1 := rateInt1_pair [((2:ℚ),(0:ℚ)), (2,1)] hpre1
  have hint2 := rateInt2_pair [((1:ℚ),(0:ℚ)), (1,1)] hpre2
  have hmin : rateMinInt [((1:ℚ),(0:ℚ)), (1,1)] [((2:ℚ),(0:ℚ)), (2,1)] = 0 := by decide
  have hmax : rateMaxInt [((1:ℚ),(0:ℚ)), (1,1)] [((2:ℚ),(0:ℚ)), (2,1)] = 1 := by decide
  have havg : rateAvgExpDiff [((1:ℚ),(0:ℚ)), (1,1)] [((2:ℚ),(0:ℚ)), (2,1)] true
      = Real.log 2 := by
    unfold rateAvgExpDiff
    rw [hint1, hint2, hmin, hmax]
    push_cast
    rw [Real.log_one]
    ring
  rw [bdrate_of_valid (by decide) (by decide) true, if_neg (by decide), havg,
    if_neg (by nlinarith [Real.log_two_lt_d9]), Real.exp_log (by norm_num : (0:ℝ) < 2)]
  norm_num

/-- `bdrate` of the constant-rate-2 set against the constant-rate-1 set
(pchip mode): `avg_exp_diff = -log 2`, result `-50` percent. -/
theorem bdrate_two_one_eval :
    bdrate [((2:ℚ),(0:ℚ)), (2,1)] [((1:ℚ),(0:ℚ)), (1,1)] true = .ok (some (-50)) := by
  have hpre1 : preprocess [((2:ℚ),(0:ℚ)), (2,1)] 1 = [(2,0),(2,1)] := by decide
  have hpre2 : preprocess [((1:ℚ),(0:ℚ)), (1,1)] 1 = [(1,0),(1,1)] := by decide
  have hint1 := rateInt1_pair [((1:ℚ),(0:ℚ)), (1,1)] hpre1
  have hint2 := rateInt2_pair [((2:ℚ),(0:ℚ)), (2,1)] hpre2
  have hmin : rateMinInt [((2:ℚ),(0:ℚ)), (2,1)] [((1:ℚ),(0:ℚ)), (1,1)] = 0 := by decide
  have hmax : rateMaxInt [((2:ℚ),(0:ℚ)), (2,1)] [((1:ℚ),(0:ℚ)), (1,1)] = 1 := by decide
  have havg : rateAvgExpDiff [((2:ℚ),(0:ℚ)), (2,1)] [((1:ℚ),(0:ℚ)), (1,1)] true
      = -Real.log 2 := by
    unfold rateAvgExpDiff
    rw [hint1, hint2, hmin, hmax]
    push_cast
    rw [Real.log_one]
    ring
  have hlog : (0:ℝ) ≤ Real.log 2 := Real.log_nonneg (by norm_num)
  rw [bdrate_of_valid (by decide) (by decide) true, if_neg (by decide), havg,
    if_neg (by nlinarith), Real.exp_neg, Real.exp_log (by norm_num : (0:ℝ) < 2)]
  norm_num

/-- C10: for valid point sets with a non-degenerate log-rate overlap,
`bdsnr(A, B) = -(bdsnr(B, A))` in both modes (the interval is symmetric in
the two sets and the numerator changes sign under the swap); no such
antisymmetry holds for `bdrate`, witnessed by a concrete pair with
`bdrate(A, B) = 100` but `bdrate(B, A) = -50`. -/
theorem C10_bdsnr_antisymmetry :
    (∀ (s1 s2 : List (ℚ × ℚ)) (pchip : Bool), ValidSnrSet s1 → ValidSnrSet s2 →
      snrMinInt s1 s2 < snrMaxInt s1 s2 →
      ∃ r : ℝ, bdsnr s1 s2 pchip = .ok r ∧ bdsnr s2 s1 pchip = .ok (-r)) ∧
    ¬ ∃ r : ℝ,
        bdrate [((1:ℚ),(0:ℚ)), (1,1)] [((2:ℚ),(0:ℚ)), (2,1)] true = .ok (some r) ∧
        bdrate [((2:ℚ),(0:ℚ)), (2,1)] [((1:ℚ),(0:ℚ)), (1,1)] true = .ok (some (-r)) := by
  constructor
  · intro s1 s2 pchip h1 h2 hlt
    refine ⟨snrAvgDiff s1 s2 pchip, bdsnr_of_valid h1 h2 pchip, ?_⟩
    rw [bdsnr_of_valid h2 h1 pchip]
    have hmin : snrMinInt s2 s1 = snrMinInt s1 s2 := max_comm _ _
    have hmax : snrMaxInt s2 s1 = snrMaxInt s1 s2 := min_comm _ _
    have hne : snrMaxInt s1 s2 ≠ snrMinInt s1 s2 := ne_of_gt hlt
    have hi1 : snrInt1 s2 s1 pchip = snrInt2 s1 s2 pchip := by
      unfold snrInt1 snrInt2
      rw [hmin, hmax]
    have hi2 : snrInt2 s2 s1 pchip = snrInt1 s1 s2 pchip := by
      unfold snrInt1 snrInt2
      rw [hmin, hmax]
    unfold snrAvgDiff
    rw [hmin, hmax, hi1, hi2, if_pos hne, if_pos hne]
    have heq : (snrInt1 s1 s2 pchip - snrInt2 s1 s2 pchip) /
          (snrMaxInt s1 s2 - snrMinInt s1 s2)
        = -((snrInt2 s1 s2 pchip - snrInt1 s1 s2 pchip) /
          (snrMaxInt s1 s2 - snrMinInt s1 s2)) := by
      ring
    rw [heq]
  · rintro ⟨r, hr1, hr2⟩
    rw [bdrate_one_two_eval] at hr1
    rw [bdrate_two_one_eval] at hr2
    have h1 : (100:ℝ) = r := Option.some.inj (Except.ok.inj hr1)
    have h2 : (-50:ℝ) = -r := Option.some.inj (Except.ok.inj hr2)
    rw [← h1] at h2
    norm_num at h2

/-- C10 witness: concrete valid sets with the non-degenerate log-rate
overlap `[log 2, log 4]`. -/
theorem C10_witness :
    ∃ r : ℝ, bdsnr [((1:ℚ),(1:ℚ)), (4,2)] [((2:ℚ),(1:ℚ)), (8,3)] true = .ok r ∧
      bdsnr [((2:ℚ),(1:ℚ)), (8,3)] [((1:ℚ),(1:ℚ)), (4,2)] true = .ok (-r) := by
  have e1 : snrLogRates [((1:ℚ),(1:ℚ)), (4,2)] = [Real.log 1, Real.log 4] := by
    have hp : preprocess [((1:ℚ),(1:ℚ)), (4,2)] 0 = [(1,1),(4,2)] := by decide
    unfold snrLogRates snrRates logList
    rw [hp]
    norm_num
  have e2 : snrLogRates [((2:ℚ),(1:ℚ)), (8,3)] = [Real.log 2, Real.log 8] := by
    have hp : preprocess [((2:ℚ),(1:ℚ)), (8,3)] 0 = [(2,1),(8,3)] := by decide
    unfold snrLogRates snrRates logList
    rw [hp]
    norm_num
  have hlt : snrMinInt [((1:ℚ),(1:ℚ)), (4,2)] [((2:ℚ),(1:ℚ)), (8,3)] <
      snrMaxInt [((1:ℚ),(1:ℚ)), (4,2)] [((2:ℚ),(1:ℚ)), (8,3)] := by
    unfold snrMinInt snrMaxInt
    rw [e1, e2, listMin_pair, listMin_pair, listMax_pair, listMax_pair]
    have l2 : (0:ℝ) ≤ Real.log 2 := Real.log_nonneg (by norm_num)
    have l14 : (0:ℝ) ≤ Real.log 4 := Real.log_nonneg (by norm_num)
    have l24 : Real.log 2 < Real.log 4 := Real.log_lt_log (by norm_num) (by norm_num)
    have l28 : Real.log 2 ≤ Real.log 8 := Real.log_le_log (by norm_num) (by norm_num)
    have l48 : Real.log 4 ≤ Real.log 8 := Real.log_le_log (by norm_num) (by norm_num)
    rw [Real.log_one, min_eq_left l14, min_eq_left l28, max_eq_right l2,
      max_eq_right l14, max_eq_right l28, min_eq_left l48]
    exact l24
  exact C10_bdsnr_antisymmetry.1 _ _ true (by decide) (by decide) hlt
